import Mathlib

/-!
Verification development for the `gomodifytype` tool (src/main.go).

The tool parses one Go source file, computes a line span from a user
selection (an explicit line range, a struct name optionally narrowed to a
field, or the whole file), and rewrites the type of every struct field
inside the span whose printed type equals a requested `from` string,
replacing it with a fresh identifier spelled as the requested `to` string.

The embedding below mirrors the relevant parts of `src/main.go`:

* `Expr`, `Fields`, `Field` model the `go/ast` expression shapes the tool
  inspects.  Token positions are modelled at line granularity: every node
  carries the line number of its `Pos()` token, so that
  `fileSet.Position(n.Pos()).Line` becomes `exprPosLine` and friends.
  `ast.NewIdent` yields a node with position `token.NoPos`, whose line
  resolves to `0`; this is modelled by giving rewritten identifiers line 0.
* `Field.mk names namesLine ty endLine` models `ast.Field`: `namesLine` is
  the line of `Names[0].Pos()` (meaningful when `names` is nonempty) and
  `endLine` caches the line of the parse-time `Field.End()` position, which
  only the selector reads (selection runs before any rewrite).
* The `other` constructor stands for any further expression form that
  contains no struct type literal inside it, rendered atomically by its
  `types.ExprString` spelling.
-/

namespace GMT

mutual

/-- Model of the `go/ast` type expressions handled by the tool.
`structType kwLine openLine closeLine fields` records the line of the
`struct` keyword (`StructType.Pos()`), of the opening brace
(`Fields.Opening`) and of the closing brace (`Fields.Closing`, which is
also the line of `StructType.End()`). -/
inductive Expr where
  | ident (name : String) (line : Nat)
  | star (x : Expr) (line : Nat)
  | array (elt : Expr) (line : Nat)
  | structType (kwLine openLine closeLine : Nat) (fields : Fields)
  | other (srepr : String) (line : Nat)
deriving DecidableEq

/-- List of fields of a struct type (`ast.FieldList.List`). -/
inductive Fields where
  | nil : Fields
  | cons (f : Field) (fs : Fields) : Fields
deriving DecidableEq

/-- Model of `ast.Field`: declared names (empty for an anonymous field,
modelling a nil `Names` slice in a parsed file), the line of the first
name token, the type expression, and the line of the field end. -/
inductive Field where
  | mk (names : List String) (namesLine : Nat) (ty : Expr) (endLine : Nat) : Field
deriving DecidableEq

end

def Field.names : Field → List String
  | .mk ns _ _ _ => ns

def Field.namesLine : Field → Nat
  | .mk _ nl _ _ => nl

def Field.ty : Field → Expr
  | .mk _ _ t _ => t

def Field.endLine : Field → Nat
  | .mk _ _ _ el => el

/-- Line of `Expr.Pos()` for each node shape: an identifier starts at its
own token, `*T` at the `*` token, `[]T` at the `[` token, a struct type at
the `struct` keyword. -/
def exprPosLine : Expr → Nat
  | .ident _ l => l
  | .star _ l => l
  | .array _ l => l
  | .structType kw _ _ _ => kw
  | .other _ l => l

/-- Line of `ast.Field.Pos()`: the first name token when names are
declared, otherwise the position of the type expression. -/
def Field.line (f : Field) : Nat :=
  match f with
  | .mk [] _ t _ => exprPosLine t
  | .mk (_ :: _) nl _ _ => nl

/-- Plain list view of a `Fields` sequence. -/
def Fields.list : Fields → List Field
  | .nil => []
  | .cons f fs => f :: Fields.list fs

/-- Model of `deref` (src/main.go): strip all leading `*` and `[]`. -/
def deref : Expr → Expr
  | .star x _ => deref x
  | .array x _ => deref x
  | x => x

def joinComma (ns : List String) : String := String.intercalate ", " ns

mutual

/-- Model of `types.ExprString` on the expression shapes above: the
canonical one-line spelling of a type expression. -/
def exprString : Expr → String
  | .ident n _ => n
  | .star x _ => "*" ++ exprString x
  | .array x _ => "[]" ++ exprString x
  | .structType _ _ _ fs => "struct\x7b" ++ fieldsString fs ++ "\x7d"
  | .other s _ => s

def fieldsString : Fields → String
  | .nil => ""
  | .cons f .nil => fieldString f
  | .cons f fs => fieldString f ++ "; " ++ fieldsString fs

def fieldString : Field → String
  | .mk names _ ty _ =>
      (if names = [] then "" else joinComma names ++ " ") ++ exprString ty

end

/-- Model of `isPublicName` (src/main.go): the `for ... range` loop
returns on the very first rune, so the function reports whether the first
character of the name is upper case (and returns false on the empty
string).  `Char.isUpper` coincides with `unicode.IsUpper` on the ASCII
identifiers considered here. -/
def isPublicName (name : String) : Bool :=
  match name.data with
  | [] => false
  | c :: _ => c.isUpper

/-- Model of the `config` struct fields consumed by the selector and the
rewriter.  `fromT` and `toT` model the Go fields `from` and `to`, whose
names are reserved words in Lean; `endL` in signatures below likewise
models the Go variable `end`. -/
structure Config where
  line : String := ""
  structName : String := ""
  fieldName : String := ""
  all : Bool := false
  fromT : String := ""
  toT : String := ""
  skipUnexportedFields : Bool := false
deriving DecidableEq

/-- Representative field name resolution inside `config.rewrite`
(src/main.go lines 330-355): for a named field the first declared name
passing the visibility policy, for an anonymous field the name of its
identifier type unless unexported fields are skipped.  The empty string
means the field is skipped. -/
def resolveFieldName (skip : Bool) (f : Field) : String :=
  match f with
  | .mk [] _ ty _ =>
      match ty with
      | .ident nm _ => if !skip then nm else ""
      | _ => ""
  | .mk (n :: ns) _ _ _ =>
      match (n :: ns).find? (fun nm => !skip || isPublicName nm) with
      | some nm => nm
      | none => ""

/-- Span membership test `start <= line && line <= end` of
`config.rewrite`. -/
def inSpan (s e : Int) (line : Nat) : Bool :=
  decide (s ≤ (line : Int)) && decide ((line : Int) ≤ e)

/-- The complete per-field test of `config.rewrite`: the field starts
inside the span, its representative name resolves non-empty, and its
printed type equals `from`. -/
def fieldMatches (c : Config) (s e : Int) (f : Field) : Bool :=
  inSpan s e f.line && (resolveFieldName c.skipUnexportedFields f != "")
    && (exprString f.ty == c.fromT)

mutual

/-- Model of the `ast.Inspect(node, rewriteFunc)` pass of `config.rewrite`
(src/main.go lines 316-372) restricted to one expression: every struct
type node is visited, each of its fields is tested with `fieldMatches`,
matching fields get their type replaced by `ast.NewIdent(c.to)` (an
identifier at position `token.NoPos`, hence line 0), and the walk then
continues into the possibly replaced child, so a replaced subtree is not
itself visited. -/
def rewriteExpr (c : Config) (s e : Int) : Expr → Expr
  | .ident n l => .ident n l
  | .star x l => .star (rewriteExpr c s e x) l
  | .array x l => .array (rewriteExpr c s e x) l
  | .structType kw op cl fs => .structType kw op cl (rewriteFields c s e fs)
  | .other t l => .other t l

def rewriteFields (c : Config) (s e : Int) : Fields → Fields
  | .nil => .nil
  | .cons f fs => .cons (rewriteField c s e f) (rewriteFields c s e fs)

def rewriteField (c : Config) (s e : Int) : Field → Field
  | .mk ns nl ty el =>
      if fieldMatches c s e (.mk ns nl ty el) then .mk ns nl (.ident c.toT 0) el
      else .mk ns nl (rewriteExpr c s e ty) el

end

/-- Declaration contexts of the collected file model: a type declaration
(`ast.TypeSpec`), a variable declaration (`ast.ValueSpec`, which always
carries at least one name in a parsed file), and a composite literal
(`ast.CompositeLit`). -/
inductive Decl where
  | typeSpec (name : String) (ty : Expr)
  | valueSpec (names : List String) (ty : Expr)
  | compositeLit (ty : Expr)
deriving DecidableEq

def rewriteDecl (c : Config) (s e : Int) : Decl → Decl
  | .typeSpec n ty => .typeSpec n (rewriteExpr c s e ty)
  | .valueSpec ns ty => .valueSpec ns (rewriteExpr c s e ty)
  | .compositeLit ty => .compositeLit (rewriteExpr c s e ty)

/-- The whole-file rewrite: `ast.Inspect` reaches every struct type in
every declaration. -/
def rewriteFile (c : Config) (s e : Int) (ds : List Decl) : List Decl :=
  ds.map (rewriteDecl c s e)

/-- A parsed file: its declarations and the line count recorded by the
token file (used only by `allSelection`). -/
structure GoFile where
  decls : List Decl
  lineCount : Nat
deriving DecidableEq

/-- One entry of the index built by `collectStructs`: the inferred struct
name together with the data of the collected `ast.StructType` node.  The
Go code keys these entries by the unique token position of the node in a
`map`; the model keeps the entries as a list in traversal order and treats
the `for ... range` enumeration of the map as an arbitrary permutation of
that list, since Go map iteration order is unspecified. -/
structure StructEntry where
  name : String
  kwLine : Nat
  openLine : Nat
  closeLine : Nat
  fields : Fields
deriving DecidableEq

/-- Entry produced when a visited context node carries type `ty` and
inferred name `nm`: recorded exactly when `deref ty` is a struct type. -/
def entryOf (nm : String) (ty : Expr) : List StructEntry :=
  match deref ty with
  | .structType kw op cl fs => [⟨nm, kw, op, cl, fs⟩]
  | _ => []

mutual

/-- The `ast.Inspect` traversal of `collectStructs` (src/main.go lines
151-210) below a declaration context, in preorder.  Struct fields are
`ast.Field` nodes, so a field whose dereferenced type is a struct yields
an entry named after the field (first declared name, empty when
anonymous). -/
def collectExpr : Expr → List StructEntry
  | .ident _ _ => []
  | .other _ _ => []
  | .star x _ => collectExpr x
  | .array x _ => collectExpr x
  | .structType _ _ _ fs => collectFields fs

def collectFields : Fields → List StructEntry
  | .nil => []
  | .cons f fs => collectField f ++ collectFields fs

def collectField : Field → List StructEntry
  | .mk ns _ ty _ => entryOf (ns.headD "") ty ++ collectExpr ty

end

/-- Entries contributed by one declaration: the context node itself (a
`TypeSpec` is named by its declared name, a `ValueSpec` by its first
declared name, a `CompositeLit` has no name) followed by the entries of
its subtree. -/
def collectDecl : Decl → List StructEntry
  | .typeSpec n ty => entryOf n ty ++ collectExpr ty
  | .valueSpec ns ty => entryOf (ns.headD "") ty ++ collectExpr ty
  | .compositeLit ty => entryOf "" ty ++ collectExpr ty

/-- Model of `collectStructs`: all entries of the file in traversal
order. -/
def collectStructs (ds : List Decl) : List StructEntry :=
  ds.foldr (fun d acc => collectDecl d ++ acc) []

/-- Errors produced by the selector, tagged by kind.  The Go code returns
plain `error` values; `SelErr.message` below reproduces their message
text. -/
inductive SelErr where
  | atoiErr (token : String)
  | rangeErr
  | structNotFound
  | fieldNotFound (structName fieldName : String)
  | noSelector
deriving DecidableEq

/-- Model of `strconv.Quote` for names free of escape-needing
characters: wrap in double quotes (the `%q` verb). -/
def goQuote (s : String) : String := "\x22" ++ s ++ "\x22"

/-- Message text of each selector error, following src/main.go (the
`atoiErr` case renders the `strconv` syntax-error shape; the exact
`strconv` text is not load-bearing for any claim). -/
def SelErr.message : SelErr → String
  | .atoiErr tok => "strconv.Atoi: parsing " ++ goQuote tok ++ ": invalid syntax"
  | .rangeErr => "wrong range. start line cannot be larger than end line"
  | .structNotFound => "struct name does not exist"
  | .fieldNotFound sn fn =>
      "struct " ++ goQuote sn ++ " doesn\x27t have field name " ++ goQuote fn
  | .noSelector => "-line, -struct or -all is not passed"

/-- Model of `strings.Split(s, ",")`: split at every comma; the result is
always nonempty and `Split("") = [""]`. -/
def splitComma (s : String) : List String :=
  splitCommaAux s.data
where
  splitCommaAux : List Char → List String
    | [] => [""]
    | c :: cs =>
      if c = ',' then "" :: splitCommaAux cs
      else
        match splitCommaAux cs with
        | [] => [String.mk [c]]
        | p :: ps => String.mk (c :: p.data) :: ps

/-- Digit string value: `none` on an empty or non-digit list. -/
def digitsVal? (cs : List Char) : Option Nat :=
  match cs with
  | [] => none
  | _ =>
    cs.foldl
      (fun acc c =>
        match acc with
        | some a => if c.isDigit then some (a * 10 + (c.toNat - 48)) else none
        | none => none)
      (some 0)

/-- Model of `strconv.Atoi`: optional sign, then one or more ASCII
digits, failing outside the signed 64-bit range (the Go function returns
a non-nil error in that case, which is all `lineSelection` observes). -/
def atoi (s : String) : Option Int :=
  let signed : Bool × List Char :=
    match s.data with
    | '-' :: rest => (true, rest)
    | '+' :: rest => (false, rest)
    | l => (false, l)
  match digitsVal? signed.2 with
  | none => none
  | some n =>
    if signed.1 then if (n : Int) ≤ 2 ^ 63 then some (-(n : Int)) else none
    else if (n : Int) < 2 ^ 63 then some (n : Int) else none

/-- Model of `config.lineSelection` (src/main.go lines 229-251).  The Go
function takes the parsed node but never reads it; the `GoFile` argument
is kept to mirror the signature.  The `[]` branch of the outer match is
unreachable since `splitComma` never returns an empty list. -/
def lineSelection (c : Config) (_file : GoFile) : Except SelErr (Int × Int) :=
  match splitComma c.line with
  | [] => .error (.atoiErr "")
  | p :: rest =>
    match atoi p with
    | none => .error (.atoiErr p)
    | some start =>
      match rest with
      | [q] =>
        match atoi q with
        | none => .error (.atoiErr q)
        | some endv =>
          if start > endv then .error .rangeErr else .ok (start, endv)
      | _ =>
        if start > start then .error .rangeErr else .ok (start, start)

/-- The `for _, st := range structs` loop of `config.structSelection`:
the accumulator is overwritten on every matching entry, so the last
matching entry of the enumeration wins. -/
def pickStruct (iter : List StructEntry) (name : String) : Option StructEntry :=
  iter.foldl (fun acc en => if en.name == name then some en else acc) none

/-- The nested loops of `config.fieldSelection`: the accumulator is
overwritten on every field declaring the requested name. -/
def findFieldAux (name : String) (acc : Option Field) : Fields → Option Field
  | .nil => acc
  | .cons f fs =>
      findFieldAux name (if f.names.contains name then some f else acc) fs

/-- Model of `config.fieldSelection` (src/main.go lines 278-297): find
the field declaring the requested name and return the lines of its own
extent, or fail naming both the struct and the field. -/
def fieldSelection (c : Config) (en : StructEntry) : Except SelErr (Int × Int) :=
  match findFieldAux c.fieldName none en.fields with
  | none => .error (.fieldNotFound c.structName c.fieldName)
  | some f => .ok ((f.line : Int), (f.endLine : Int))

/-- Model of `config.structSelection` (src/main.go lines 253-276) over a
given enumeration `iter` of the collected index (see `StructEntry`): pick
the last entry whose name matches, then either narrow to a field or
return the lines of `Pos()` (the `struct` keyword) and `End()` (the
closing brace) of the struct node. -/
def structSelection (c : Config) (iter : List StructEntry) : Except SelErr (Int × Int) :=
  match pickStruct iter c.structName with
  | none => .error .structNotFound
  | some en =>
      if c.fieldName != "" then fieldSelection c en
      else .ok ((en.kwLine : Int), (en.closeLine : Int))

/-- Model of `config.allSelection`: the whole file by recorded line
count. -/
def allSelection (file : GoFile) : Except SelErr (Int × Int) :=
  .ok (1, (file.lineCount : Int))

/-- Model of `config.findSelection`: dispatch on the populated locator.
`iter` is the enumeration order of the collected index used by the struct
branch. -/
def findSelection (c : Config) (file : GoFile) (iter : List StructEntry) :
    Except SelErr (Int × Int) :=
  if c.line != "" then lineSelection c file
  else if c.structName != "" then structSelection c iter
  else if c.all then allSelection file
  else .error .noSelector

/-- The selection-then-rewrite pipeline of `run` (src/main.go lines
65-83): a selection error aborts before the rewrite, leaving the tree
untouched and producing no output tree. -/
def runCore (c : Config) (file : GoFile) (iter : List StructEntry) :
    Except SelErr GoFile :=
  match findSelection c file iter with
  | .error err => .error err
  | .ok (s, e) => .ok ⟨rewriteFile c s e file.decls, file.lineCount⟩

mutual

/-- All field nodes occurring anywhere below an expression, in preorder. -/
def exprFields : Expr → List Field
  | .ident _ _ => []
  | .other _ _ => []
  | .star x _ => exprFields x
  | .array x _ => exprFields x
  | .structType _ _ _ fs => fieldsFields fs

def fieldsFields : Fields → List Field
  | .nil => []
  | .cons f fs => fieldFields f ++ fieldsFields fs

def fieldFields : Field → List Field
  | .mk ns nl ty el => .mk ns nl ty el :: exprFields ty

end

def declFields : Decl → List Field
  | .typeSpec _ ty => exprFields ty
  | .valueSpec _ ty => exprFields ty
  | .compositeLit ty => exprFields ty

/-- All field nodes of a file. -/
def fileFields (ds : List Decl) : List Field :=
  ds.foldr (fun d acc => declFields d ++ acc) []

/-- Whether an expression contains a struct type literal at its head or
below a chain of `*` and `[]`. -/
def hasStructTy : Expr → Bool
  | .ident _ _ => false
  | .other _ _ => false
  | .star x _ => hasStructTy x
  | .array x _ => hasStructTy x
  | .structType _ _ _ _ => true

/-- Abstract serialization of a declaration: types are printed with the
standard expression printer, which is enough to witness differences in
the serialized output. -/
def declString : Decl → String
  | .typeSpec n ty => "type " ++ n ++ " " ++ exprString ty
  | .valueSpec ns ty => "var " ++ joinComma ns ++ " " ++ exprString ty
  | .compositeLit ty => exprString ty ++ "\x7b\x7d"

/-- Abstract serialization of a file. -/
def fileString (ds : List Decl) : String :=
  String.intercalate "\n" (ds.map declString)

end GMT

namespace GMT

/-! ## Helper lemmas about the selection loops -/

/-- A fold that overwrites its accumulator on every element satisfying
`p` returns the last satisfying element, or the initial accumulator when
none exists.  Both selection loops of the source have this shape. -/
theorem foldl_overwrite_eq {α : Type} (p : α → Bool) :
    ∀ (l : List α) (acc : Option α),
      l.foldl (fun a x => if p x then some x else a) acc
        = ((l.filter p).getLast?).or acc := by
  intro l
  induction l with
  | nil => intro acc; simp
  | cons x l ih =>
      intro acc
      rw [List.foldl_cons, ih, List.filter_cons]
      by_cases hp : p x = true
      · rw [if_pos hp, if_pos hp]
        cases hf : l.filter p with
        | nil => simp
        | cons y ys =>
            rw [List.getLast?_cons_cons]
            have hs : (y :: ys).getLast?.isSome = true :=
              List.getLast?_isSome.mpr (by simp)
            obtain ⟨z, hz⟩ := Option.isSome_iff_exists.mp hs
            rw [hz]
            rfl
      · rw [if_neg hp, if_neg hp]

/-- The struct-selection loop picks the last matching entry of the
enumeration. -/
theorem pickStruct_eq_getLast? (iter : List StructEntry) (name : String) :
    pickStruct iter name
      = (iter.filter (fun en => en.name == name)).getLast? := by
  unfold pickStruct
  rw [foldl_overwrite_eq, Option.or_none]

theorem findFieldAux_eq_foldl (name : String) :
    ∀ (fs : Fields) (acc : Option Field),
      findFieldAux name acc fs
        = (Fields.list fs).foldl
            (fun a f => if f.names.contains name then some f else a) acc
  | .nil, acc => rfl
  | .cons f fs, acc => by
      rw [findFieldAux, Fields.list, List.foldl_cons]
      exact findFieldAux_eq_foldl name fs _

/-- The field-selection loops pick the last field declaring the name. -/
theorem findFieldAux_eq_getLast? (name : String) (fs : Fields) :
    findFieldAux name none fs
      = ((Fields.list fs).filter (fun f => f.names.contains name)).getLast? := by
  rw [findFieldAux_eq_foldl, foldl_overwrite_eq, Option.or_none]

end GMT

namespace GMT

/-! ## Helper lemmas about the rewriter -/

theorem exprPosLine_rewrite (c : Config) (s e : Int) (x : Expr) :
    exprPosLine (rewriteExpr c s e x) = exprPosLine x := by
  cases x <;> simp [rewriteExpr, exprPosLine]

theorem fieldLine_rewriteSub (c : Config) (s e : Int) (ns : List String)
    (nl : Nat) (ty : Expr) (el : Nat) :
    Field.line (.mk ns nl (rewriteExpr c s e ty) el)
      = Field.line (.mk ns nl ty el) := by
  cases ns <;> simp [Field.line, exprPosLine_rewrite]

theorem resolve_rewriteSub (c : Config) (s e : Int) (sk : Bool)
    (ns : List String) (nl : Nat) (ty : Expr) (el : Nat) :
    resolveFieldName sk (.mk ns nl (rewriteExpr c s e ty) el)
      = resolveFieldName sk (.mk ns nl ty el) := by
  cases ns with
  | nil => cases ty <;> simp [resolveFieldName, rewriteExpr]
  | cons n ns => simp [resolveFieldName]

theorem hasStructTy_rewrite_of_ne (c : Config) (s e : Int) :
    ∀ x : Expr, rewriteExpr c s e x ≠ x → hasStructTy (rewriteExpr c s e x) = true
  | .ident n l, h => absurd (by simp [rewriteExpr]) h
  | .other t l, h => absurd (by simp [rewriteExpr]) h
  | .star x l, h => by
      have hx : rewriteExpr c s e x ≠ x := by
        intro he
        exact h (by simp [rewriteExpr, he])
      simpa [rewriteExpr, hasStructTy] using hasStructTy_rewrite_of_ne c s e x hx
  | .array x l, h => by
      have hx : rewriteExpr c s e x ≠ x := by
        intro he
        exact h (by simp [rewriteExpr, he])
      simpa [rewriteExpr, hasStructTy] using hasStructTy_rewrite_of_ne c s e x hx
  | .structType kw op cl fs, _ => by simp [rewriteExpr, hasStructTy]

theorem infix_append_left {α : Type} {l₁ l₂ : List α} (l₀ : List α)
    (h : l₁ <:+: l₂) : l₁ <:+: l₀ ++ l₂ := by
  obtain ⟨u, v, huv⟩ := h
  exact ⟨l₀ ++ u, v, by rw [← huv]; simp⟩

/-- The printed form of any expression containing a struct literal
contains the characters of `struct\x7b`. -/
theorem structKw_infix_of_hasStructTy :
    ∀ x : Expr, hasStructTy x = true → "struct\x7b".data <:+: (exprString x).data
  | .ident n l, h => by simp [hasStructTy] at h
  | .other t l, h => by simp [hasStructTy] at h
  | .star x l, h => by
      have ih := structKw_infix_of_hasStructTy x (by simpa [hasStructTy] using h)
      rw [show exprString (.star x l) = "*" ++ exprString x from by simp [exprString],
        String.data_append]
      exact infix_append_left _ ih
  | .array x l, h => by
      have ih := structKw_infix_of_hasStructTy x (by simpa [hasStructTy] using h)
      rw [show exprString (.array x l) = "[]" ++ exprString x from by simp [exprString],
        String.data_append]
      exact infix_append_left _ ih
  | .structType kw op cl fs, _ => by
      refine ⟨[], (fieldsString fs).data ++ "\x7d".data, ?_⟩
      simp [exprString, String.data_append]

/-- If a field fails the match test, so does the field with its type
rewritten in place, provided `from` does not spell a struct literal
anywhere inside it. -/
theorem fieldMatches_rewriteSub (c : Config) (s e : Int) (ns : List String)
    (nl : Nat) (ty : Expr) (el : Nat)
    (hfrom : ¬ "struct\x7b".data <:+: c.fromT.data)
    (hm : fieldMatches c s e (.mk ns nl ty el) = false) :
    fieldMatches c s e (.mk ns nl (rewriteExpr c s e ty) el) = false := by
  by_cases hr : rewriteExpr c s e ty = ty
  · rw [show (Field.mk ns nl (rewriteExpr c s e ty) el) = .mk ns nl ty el from by rw [hr]]
    exact hm
  · have h1 := hasStructTy_rewrite_of_ne c s e ty hr
    have h2 := structKw_infix_of_hasStructTy _ h1
    have h3 : exprString (rewriteExpr c s e ty) ≠ c.fromT := by
      intro hEq
      rw [hEq] at h2
      exact hfrom h2
    simp [fieldMatches, Field.ty, beq_eq_false_iff_ne.mpr h3]

end GMT

namespace GMT

mutual

theorem rewriteExpr_eq_of_noMatch (c : Config) (s e : Int) :
    ∀ x : Expr, (∀ f ∈ exprFields x, fieldMatches c s e f = false) →
      rewriteExpr c s e x = x
  | .ident n l, _ => by simp [rewriteExpr]
  | .other t l, _ => by simp [rewriteExpr]
  | .star x l, h => by
      simp only [rewriteExpr]
      rw [rewriteExpr_eq_of_noMatch c s e x (by simpa [exprFields] using h)]
  | .array x l, h => by
      simp only [rewriteExpr]
      rw [rewriteExpr_eq_of_noMatch c s e x (by simpa [exprFields] using h)]
  | .structType kw op cl fs, h => by
      simp only [rewriteExpr]
      rw [rewriteFields_eq_of_noMatch c s e fs (by simpa [exprFields] using h)]

theorem rewriteFields_eq_of_noMatch (c : Config) (s e : Int) :
    ∀ fs : Fields, (∀ f ∈ fieldsFields fs, fieldMatches c s e f = false) →
      rewriteFields c s e fs = fs
  | .nil, _ => by simp [rewriteFields]
  | .cons f fs, h => by
      simp only [rewriteFields]
      rw [rewriteField_eq_of_noMatch c s e f
          (fun g hg => h g (by simp [fieldsFields, hg])),
        rewriteFields_eq_of_noMatch c s e fs
          (fun g hg => h g (by simp [fieldsFields, hg]))]

theorem rewriteField_eq_of_noMatch (c : Config) (s e : Int) :
    ∀ f0 : Field, (∀ f ∈ fieldFields f0, fieldMatches c s e f = false) →
      rewriteField c s e f0 = f0
  | .mk ns nl ty el, h => by
      have hm : fieldMatches c s e (.mk ns nl ty el) = false :=
        h _ (by simp [fieldFields])
      simp only [rewriteField]
      rw [if_neg (by simp [hm]),
        rewriteExpr_eq_of_noMatch c s e ty
          (fun g hg => h g (by simp [fieldFields, hg]))]

end

theorem rewriteDecl_eq_of_noMatch (c : Config) (s e : Int) (d : Decl)
    (h : ∀ f ∈ declFields d, fieldMatches c s e f = false) :
    rewriteDecl c s e d = d := by
  cases d with
  | typeSpec n ty =>
      simp only [rewriteDecl]
      rw [rewriteExpr_eq_of_noMatch c s e ty (by simpa [declFields] using h)]
  | valueSpec ns ty =>
      simp only [rewriteDecl]
      rw [rewriteExpr_eq_of_noMatch c s e ty (by simpa [declFields] using h)]
  | compositeLit ty =>
      simp only [rewriteDecl]
      rw [rewriteExpr_eq_of_noMatch c s e ty (by simpa [declFields] using h)]

theorem rewriteFile_eq_of_noMatch (c : Config) (s e : Int) (ds : List Decl)
    (h : ∀ f ∈ fileFields ds, fieldMatches c s e f = false) :
    rewriteFile c s e ds = ds := by
  induction ds with
  | nil => rfl
  | cons d ds ih =>
      simp only [rewriteFile, List.map_cons]
      rw [rewriteDecl_eq_of_noMatch c s e d
          (fun g hg => h g (by simp [fileFields, hg]))]
      have := ih (fun g hg => h g (by simp [fileFields] at hg ⊢; right; simpa [fileFields] using hg))
      simpa [rewriteFile] using this

mutual

theorem rewriteExpr_idem (c : Config) (s e : Int)
    (hfrom : ¬ "struct\x7b".data <:+: c.fromT.data) :
    ∀ x : Expr, rewriteExpr c s e (rewriteExpr c s e x) = rewriteExpr c s e x
  | .ident n l => by simp [rewriteExpr]
  | .other t l => by simp [rewriteExpr]
  | .star x l => by
      simp only [rewriteExpr]
      rw [rewriteExpr_idem c s e hfrom x]
  | .array x l => by
      simp only [rewriteExpr]
      rw [rewriteExpr_idem c s e hfrom x]
  | .structType kw op cl fs => by
      simp only [rewriteExpr]
      rw [rewriteFields_idem c s e hfrom fs]

theorem rewriteFields_idem (c : Config) (s e : Int)
    (hfrom : ¬ "struct\x7b".data <:+: c.fromT.data) :
    ∀ fs : Fields, rewriteFields c s e (rewriteFields c s e fs) = rewriteFields c s e fs
  | .nil => by simp [rewriteFields]
  | .cons f fs => by
      simp only [rewriteFields]
      rw [rewriteField_idem c s e hfrom f, rewriteFields_idem c s e hfrom fs]

theorem rewriteField_idem (c : Config) (s e : Int)
    (hfrom : ¬ "struct\x7b".data <:+: c.fromT.data) :
    ∀ f : Field, rewriteField c s e (rewriteField c s e f) = rewriteField c s e f
  | .mk ns nl ty el => by
      by_cases hm : fieldMatches c s e (.mk ns nl ty el) = true
      · rw [show rewriteField c s e (.mk ns nl ty el) = .mk ns nl (.ident c.toT 0) el
            from by simp only [rewriteField]; rw [if_pos hm]]
        by_cases hm2 : fieldMatches c s e (.mk ns nl (.ident c.toT 0) el) = true
        · simp only [rewriteField]
          rw [if_pos hm2]
        · simp only [rewriteField]
          rw [if_neg hm2]
          simp [rewriteExpr]
      · have hmf : fieldMatches c s e (.mk ns nl ty el) = false := by
          simpa using hm
        rw [show rewriteField c s e (.mk ns nl ty el)
              = .mk ns nl (rewriteExpr c s e ty) el
            from by simp only [rewriteField]; rw [if_neg hm]]
        have hm2 := fieldMatches_rewriteSub c s e ns nl ty el hfrom hmf
        simp only [rewriteField]
        rw [if_neg (by simp [hm2]), rewriteExpr_idem c s e hfrom ty]

end

theorem rewriteDecl_idem (c : Config) (s e : Int)
    (hfrom : ¬ "struct\x7b".data <:+: c.fromT.data) (d : Decl) :
    rewriteDecl c s e (rewriteDecl c s e d) = rewriteDecl c s e d := by
  cases d <;> simp [rewriteDecl, rewriteExpr_idem c s e hfrom]

theorem rewriteFile_idem_aux (c : Config) (s e : Int)
    (hfrom : ¬ "struct\x7b".data <:+: c.fromT.data) (ds : List Decl) :
    rewriteFile c s e (rewriteFile c s e ds) = rewriteFile c s e ds := by
  induction ds with
  | nil => rfl
  | cons d ds ih =>
      simp only [rewriteFile, List.map_cons] at ih ⊢
      rw [rewriteDecl_idem c s e hfrom d]
      exact congrArg _ ih

end GMT

namespace GMT

/-! ## Evaluation lemmas for the selector -/

theorem lineSelection_eq_two (c : Config) (file : GoFile) (a b : String) (n m : Int)
    (hsplit : splitComma c.line = [a, b]) (ha : atoi a = some n) (hb : atoi b = some m) :
    lineSelection c file = if n > m then .error .rangeErr else .ok (n, m) := by
  unfold lineSelection
  rw [hsplit]
  simp only [ha, hb]

theorem lineSelection_eq_one (c : Config) (file : GoFile) (a : String) (n : Int)
    (hsplit : splitComma c.line = [a]) (ha : atoi a = some n) :
    lineSelection c file = .ok (n, n) := by
  unfold lineSelection
  rw [hsplit]
  simp only [ha]
  rw [if_neg (lt_irrefl n)]

theorem lineSelection_eq_many (c : Config) (file : GoFile) (a r1 r2 : String)
    (rest : List String) (n : Int)
    (hsplit : splitComma c.line = a :: r1 :: r2 :: rest) (ha : atoi a = some n) :
    lineSelection c file = .ok (n, n) := by
  unfold lineSelection
  rw [hsplit]
  simp only [ha]
  rw [if_neg (lt_irrefl n)]

theorem lineSelection_err_first (c : Config) (file : GoFile) (a : String)
    (rest : List String)
    (hsplit : splitComma c.line = a :: rest) (ha : atoi a = none) :
    lineSelection c file = .error (.atoiErr a) := by
  unfold lineSelection
  rw [hsplit]
  simp only [ha]

theorem lineSelection_err_second (c : Config) (file : GoFile) (a b : String) (n : Int)
    (hsplit : splitComma c.line = [a, b]) (ha : atoi a = some n) (hb : atoi b = none) :
    lineSelection c file = .error (.atoiErr b) := by
  unfold lineSelection
  rw [hsplit]
  simp only [ha, hb]

/-! ## Pipeline lemmas -/

theorem findSelection_line (c : Config) (file : GoFile) (iter : List StructEntry)
    (hl : c.line ≠ "") : findSelection c file iter = lineSelection c file := by
  unfold findSelection
  rw [if_pos (by simpa using hl)]

theorem findSelection_struct (c : Config) (file : GoFile) (iter : List StructEntry)
    (hl : c.line = "") (hs : c.structName ≠ "") :
    findSelection c file iter = structSelection c iter := by
  unfold findSelection
  rw [if_neg (by simp [hl]), if_pos (by simpa using hs)]

theorem runCore_error (c : Config) (file : GoFile) (iter : List StructEntry)
    (err : SelErr) (h : findSelection c file iter = .error err) :
    runCore c file iter = .error err := by
  unfold runCore
  rw [h]

theorem structSelection_of_pick (c : Config) (iter : List StructEntry)
    (en : StructEntry) (hpick : pickStruct iter c.structName = some en) :
    structSelection c iter
      = if c.fieldName != "" then fieldSelection c en
        else .ok ((en.kwLine : Int), (en.closeLine : Int)) := by
  unfold structSelection
  rw [hpick]

theorem structSelection_none (c : Config) (iter : List StructEntry)
    (hpick : pickStruct iter c.structName = none) :
    structSelection c iter = .error .structNotFound := by
  unfold structSelection
  rw [hpick]

end GMT

namespace GMT

/-! ## Claim C7 -/

/-- C7: for every line string of exactly two comma-separated integer
tokens N and M with N <= M, line selection returns exactly (N, M); for a
single integer token N it returns (N, N); in both cases the result does
not depend on the syntax tree. -/
theorem lineSelection_valid_ranges (c : Config) (file file2 : GoFile) :
    (∀ a b : String, ∀ n m : Int, splitComma c.line = [a, b] →
        atoi a = some n → atoi b = some m → n ≤ m →
        lineSelection c file = .ok (n, m)) ∧
    (∀ a : String, ∀ n : Int, splitComma c.line = [a] → atoi a = some n →
        lineSelection c file = .ok (n, n)) ∧
    lineSelection c file = lineSelection c file2 := by
  refine ⟨?_, ?_, rfl⟩
  · intro a b n m hsplit ha hb hnm
    rw [lineSelection_eq_two c file a b n m hsplit ha hb, if_neg (not_lt.mpr hnm)]
  · intro a n hsplit ha
    exact lineSelection_eq_one c file a n hsplit ha

theorem lineSelection_valid_ranges_witness :
    lineSelection { line := "4,8" } ⟨[], 10⟩ = .ok (4, 8) :=
  (lineSelection_valid_ranges { line := "4,8" } ⟨[], 10⟩ ⟨[], 10⟩).1
    "4" "8" 4 8 rfl rfl rfl (by decide)

/-! ## Claim C10 -/

/-- C10: a line string with more than two comma-separated tokens whose
first token parses as the integer N does not fail: the tokens after the
first are silently ignored and the result is (N, N). -/
theorem lineSelection_extra_tokens_ignored (c : Config) (file : GoFile)
    (a : String) (rest : List String) (n : Int)
    (hsplit : splitComma c.line = a :: rest) (hlen : 2 < (a :: rest).length)
    (ha : atoi a = some n) :
    lineSelection c file = .ok (n, n) := by
  cases rest with
  | nil => simp at hlen
  | cons r1 rest1 =>
      cases rest1 with
      | nil => simp at hlen
      | cons r2 rest2 => exact lineSelection_eq_many c file a r1 r2 rest2 n hsplit ha

theorem lineSelection_extra_tokens_ignored_witness :
    lineSelection { line := "4,8,12" } ⟨[], 20⟩ = .ok (4, 4) :=
  lineSelection_extra_tokens_ignored { line := "4,8,12" } ⟨[], 20⟩
    "4" ["8", "12"] 4 rfl (by decide) rfl

/-! ## Claim C6 (corrected) -/

/-- C6 counterexample: the line string "1,x,2" has a second
comma-separated token "x" that is not an integer, yet line selection
succeeds with (1, 1) instead of failing with a parse error: the
second-token parse only runs when the string has exactly two tokens. -/
theorem lineSelection_second_token_counterexample :
    splitComma "1,x,2" = ["1", "x", "2"] ∧ atoi "x" = none ∧
    lineSelection { line := "1,x,2" } ⟨[], 10⟩ = .ok (1, 1) :=
  ⟨rfl, rfl, rfl⟩

/-- C6 (amended): line selection fails with the range error when the
string has exactly two integer tokens N > M; it fails with a parse error
when the first token is not an integer, or when the string has exactly
two tokens and the second is not an integer (with more than two tokens
everything after the first is ignored).  The failures depend only on the
line string, never on the tree, and on failure the pipeline stops before
the rewrite, so the tree is untouched and no output tree is produced. -/
theorem lineSelection_errors_amended (c : Config) (file file2 : GoFile)
    (iter : List StructEntry) (hl : c.line ≠ "") :
    (∀ a b : String, ∀ n m : Int, splitComma c.line = [a, b] →
        atoi a = some n → atoi b = some m → n > m →
        lineSelection c file = .error .rangeErr ∧
        runCore c file iter = .error .rangeErr) ∧
    (∀ a : String, ∀ rest : List String, splitComma c.line = a :: rest →
        atoi a = none →
        lineSelection c file = .error (.atoiErr a) ∧
        runCore c file iter = .error (.atoiErr a)) ∧
    (∀ a b : String, ∀ n : Int, splitComma c.line = [a, b] →
        atoi a = some n → atoi b = none →
        lineSelection c file = .error (.atoiErr b) ∧
        runCore c file iter = .error (.atoiErr b)) ∧
    lineSelection c file = lineSelection c file2 := by
  have hfind : findSelection c file iter = lineSelection c file :=
    findSelection_line c file iter hl
  refine ⟨?_, ?_, ?_, rfl⟩
  · intro a b n m hsplit ha hb hgt
    have h1 : lineSelection c file = .error .rangeErr := by
      rw [lineSelection_eq_two c file a b n m hsplit ha hb, if_pos hgt]
    exact ⟨h1, runCore_error c file iter _ (by rw [hfind, h1])⟩
  · intro a rest hsplit ha
    have h1 := lineSelection_err_first c file a rest hsplit ha
    exact ⟨h1, runCore_error c file iter _ (by rw [hfind, h1])⟩
  · intro a b n hsplit ha hb
    have h1 := lineSelection_err_second c file a b n hsplit ha hb
    exact ⟨h1, runCore_error c file iter _ (by rw [hfind, h1])⟩

theorem lineSelection_errors_amended_witness :
    lineSelection { line := "5,3" } ⟨[], 9⟩ = .error .rangeErr ∧
    runCore { line := "5,3" } ⟨[], 9⟩ [] = .error .rangeErr :=
  (lineSelection_errors_amended { line := "5,3" } ⟨[], 9⟩ ⟨[], 9⟩ [] (by decide)).1
    "5" "3" 5 3 rfl rfl rfl (by decide)

end GMT

namespace GMT

/-! ## Claim C2 -/

/-- C2: when visibility filtering is disabled the representative name of
a named field is its first declared name; when enabled it is the first
declared name whose first character is an upper-case letter, and the
field is not rewritten when no declared name qualifies; an anonymous
field resolves to the empty name and is unconditionally skipped when
filtering is enabled. -/
theorem representative_name_policy (c : Config) (s e : Int) (f : Field) :
    (f.names ≠ [] → c.skipUnexportedFields = false →
        resolveFieldName c.skipUnexportedFields f = f.names.headD "") ∧
    (f.names ≠ [] → c.skipUnexportedFields = true →
        resolveFieldName c.skipUnexportedFields f
          = (f.names.find? isPublicName).getD "") ∧
    (f.names ≠ [] → c.skipUnexportedFields = true →
        f.names.find? isPublicName = none → fieldMatches c s e f = false) ∧
    (f.names = [] → c.skipUnexportedFields = true →
        resolveFieldName c.skipUnexportedFields f = "" ∧
        fieldMatches c s e f = false) := by
  cases f with
  | mk ns nl ty el =>
    refine ⟨?_, ?_, ?_, ?_⟩
    · intro hne hskip
      cases ns with
      | nil => exact absurd rfl hne
      | cons n ns' =>
          rw [hskip]
          simp [resolveFieldName, Field.names]
    · intro hne hskip
      cases ns with
      | nil => exact absurd rfl hne
      | cons n ns' =>
          rw [hskip]
          simp only [resolveFieldName, Bool.not_true, Bool.false_or, Field.names]
          cases h : (n :: ns').find? isPublicName <;> simp [h]
    · intro hne hskip hfind
      cases ns with
      | nil => exact absurd rfl hne
      | cons n ns' =>
          simp only [Field.names] at hfind
          have hres : resolveFieldName c.skipUnexportedFields
              (.mk (n :: ns') nl ty el) = "" := by
            rw [hskip]
            simp only [resolveFieldName, Bool.not_true, Bool.false_or, hfind]
          simp [fieldMatches, hres]
    · intro hns hskip
      subst hns
      have hres : resolveFieldName c.skipUnexportedFields (.mk [] nl ty el) = "" := by
        rw [hskip]
        cases ty <;> simp [resolveFieldName]
      exact ⟨hres, by simp [fieldMatches, hres]⟩

theorem representative_name_policy_witness :
    resolveFieldName true (.mk ["bar", "Baz"] 2 (.ident "string" 2) 2)
      = ((["bar", "Baz"] : List String).find? isPublicName).getD "" :=
  (representative_name_policy { skipUnexportedFields := true } 1 10
      (.mk ["bar", "Baz"] 2 (.ident "string" 2) 2)).2.1 (by decide) rfl

/-! ## Claim C9 -/

/-- C9: a field declaring several names shares one type expression; when
the span test, the name policy and the type test all pass, the rewrite
replaces that single shared type expression, so the new type applies to
every declared name of the group, including names that would not
individually pass the visibility filter. -/
theorem grouped_names_share_rewrite (c : Config) (s e : Int)
    (ns : List String) (nl el : Nat) (ty : Expr)
    (hspan : inSpan s e (Field.line (.mk ns nl ty el)) = true)
    (hname : resolveFieldName c.skipUnexportedFields (.mk ns nl ty el) ≠ "")
    (hty : exprString ty = c.fromT) :
    rewriteField c s e (.mk ns nl ty el) = .mk ns nl (.ident c.toT 0) el ∧
    (rewriteField c s e (.mk ns nl ty el)).names = ns := by
  have hm : fieldMatches c s e (.mk ns nl ty el) = true := by
    simp [fieldMatches, hspan, hty, Field.ty, bne_iff_ne, hname]
  have h1 : rewriteField c s e (.mk ns nl ty el) = .mk ns nl (.ident c.toT 0) el := by
    simp only [rewriteField]
    rw [if_pos hm]
  exact ⟨h1, by simp [h1, Field.names]⟩

theorem grouped_names_share_rewrite_witness :
    rewriteField { fromT := "int", toT := "int64", skipUnexportedFields := true } 1 10
        (.mk ["a", "B"] 4 (.ident "int" 4) 4)
      = .mk ["a", "B"] 4 (.ident "int64" 0) 4 :=
  (grouped_names_share_rewrite
      { fromT := "int", toT := "int64", skipUnexportedFields := true } 1 10
      ["a", "B"] 4 4 (.ident "int" 4) (by decide) (by decide) rfl).1

end GMT

namespace GMT

/-! ## Claim C1 -/

theorem rewriteFields_list_map (c : Config) (s e : Int) :
    ∀ fs : Fields,
      Fields.list (rewriteFields c s e fs)
        = (Fields.list fs).map (rewriteField c s e)
  | .nil => by simp [rewriteFields, Fields.list]
  | .cons f fs => by
      simp only [rewriteFields, Fields.list, List.map_cons]
      rw [rewriteFields_list_map c s e fs]

/-- C1: the rewriter maps every field of every struct independently;
inside the span a field whose representative name resolves non-empty and
whose printed type equals `from` has its type replaced by the plain
identifier `to` at an unset position; a field failing the test keeps its
names and position data and its own type node is never replaced (only
struct fields nested inside it are themselves subject to the same rule);
and when no field of the file passes the test the rewritten tree equals
the input tree, so the serialized output is identical. -/
theorem rewrite_frame_effect (c : Config) (s e : Int) :
    (∀ (ns : List String) (nl : Nat) (ty : Expr) (el : Nat),
        fieldMatches c s e (.mk ns nl ty el) = true →
        rewriteField c s e (.mk ns nl ty el) = .mk ns nl (.ident c.toT 0) el) ∧
    (∀ (ns : List String) (nl : Nat) (ty : Expr) (el : Nat),
        fieldMatches c s e (.mk ns nl ty el) = false →
        rewriteField c s e (.mk ns nl ty el)
          = .mk ns nl (rewriteExpr c s e ty) el) ∧
    (∀ fs : Fields,
        Fields.list (rewriteFields c s e fs)
          = (Fields.list fs).map (rewriteField c s e)) ∧
    (∀ ds : List Decl, (∀ f ∈ fileFields ds, fieldMatches c s e f = false) →
        rewriteFile c s e ds = ds) := by
  refine ⟨?_, ?_, rewriteFields_list_map c s e, fun ds h => rewriteFile_eq_of_noMatch c s e ds h⟩
  · intro ns nl ty el hm
    simp only [rewriteField]
    rw [if_pos hm]
  · intro ns nl ty el hm
    simp only [rewriteField]
    rw [if_neg (by simp [hm])]

theorem rewrite_frame_effect_witness :
    rewriteField { fromT := "string", toT := "[]byte" } 3 5
        (.mk ["bar"] 4 (.ident "string" 4) 4)
      = .mk ["bar"] 4 (.ident "[]byte" 0) 4 ∧
    rewriteFile { fromT := "string", toT := "[]byte" } 20 30
        [.typeSpec "foo"
          (.structType 3 3 5 (.cons (.mk ["bar"] 4 (.ident "string" 4) 4) .nil))]
      = [.typeSpec "foo"
          (.structType 3 3 5 (.cons (.mk ["bar"] 4 (.ident "string" 4) 4) .nil))] :=
  ⟨(rewrite_frame_effect { fromT := "string", toT := "[]byte" } 3 5).1
      ["bar"] 4 (.ident "string" 4) 4 (by decide),
    (rewrite_frame_effect { fromT := "string", toT := "[]byte" } 20 30).2.2.2
      _ (by decide)⟩

/-! ## Claim C4 (corrected) -/

/-- Configuration of the idempotence counterexample: rewrite the struct
spelling `struct\x7bA int\x7d` to `int` over lines 1-10. -/
def nestedCfg : Config := { fromT := "struct\x7bA int\x7d", toT := "int" }

/-- Model of the Go file (line numbers in the margin)
```
1  package p
2
3  type T struct (
4      F struct( A struct( A int ) )
5  )
```
written here with parentheses standing for the struct braces.  The field
F has a doubly nested anonymous struct type. -/
def nestedFile : List Decl :=
  [.typeSpec "T"
    (.structType 3 3 5
      (.cons
        (.mk ["F"] 4
          (.structType 4 4 4
            (.cons
              (.mk ["A"] 4
                (.structType 4 4 4
                  (.cons (.mk ["A"] 4 (.ident "int" 4) 4) .nil))
                4)
              .nil))
          4)
        .nil))]

/-- C4 counterexample: with `from` equal to the struct spelling
`struct\x7bA int\x7d` and `to` equal to `int`, the first run over the
nested file rewrites only the inner field A, which makes the printed type
of the enclosing field F newly equal to `from`; the second run over the
same span then rewrites F as well, so the second output differs from the
first both as a tree and in serialized form, refuting the claim for this
`from`/`to` pair. -/
theorem rewrite_second_run_mutates :
    rewriteFile nestedCfg 1 10 (rewriteFile nestedCfg 1 10 nestedFile)
      ≠ rewriteFile nestedCfg 1 10 nestedFile ∧
    fileString (rewriteFile nestedCfg 1 10 (rewriteFile nestedCfg 1 10 nestedFile))
      ≠ fileString (rewriteFile nestedCfg 1 10 nestedFile) :=
  ⟨by decide, by decide⟩

/-- C4 (amended): the rewrite is idempotent whenever the character
sequence `struct\x7b` does not occur inside `from` (in particular for
every identifier, pointer or slice spelling): a second run with the same
`from`/`to` over the same span returns the tree of the first run
unchanged, for every `to` including `to = from`.  The restriction is
necessary: when `from` spells a struct literal, the first run can make an
printed type of an enclosing field newly equal to `from` and the second run
then mutates further, as the counterexample shows. -/
theorem rewrite_idempotent_amended (c : Config) (s e : Int)
    (hfrom : ¬ "struct\x7b".data <:+: c.fromT.data) (ds : List Decl) :
    rewriteFile c s e (rewriteFile c s e ds) = rewriteFile c s e ds :=
  rewriteFile_idem_aux c s e hfrom ds

theorem rewrite_idempotent_amended_witness :
    rewriteFile { fromT := "int", toT := "int64" } 1 10
        (rewriteFile { fromT := "int", toT := "int64" } 1 10
          [.typeSpec "foo"
            (.structType 2 2 4 (.cons (.mk ["A"] 3 (.ident "int" 3) 3) .nil))])
      = rewriteFile { fromT := "int", toT := "int64" } 1 10
          [.typeSpec "foo"
            (.structType 2 2 4 (.cons (.mk ["A"] 3 (.ident "int" 3) 3) .nil))] :=
  rewrite_idempotent_amended { fromT := "int", toT := "int64" } 1 10 (by decide) _

end GMT

namespace GMT

/-! ## Helper lemmas for struct and field selection -/

theorem mem_of_getLast?_eq {α : Type} {l : List α} {a : α}
    (h : l.getLast? = some a) : a ∈ l := by
  have hm := List.mem_getLast?_eq_getLast (l := l) (x := a) (by rw [h]; rfl)
  obtain ⟨hne, rfl⟩ := hm
  exact List.getLast_mem hne

theorem pickStruct_of_filter_singleton (iter base : List StructEntry)
    (name : String) (en : StructEntry) (hperm : iter.Perm base)
    (hfil : base.filter (fun x => x.name == name) = [en]) :
    pickStruct iter name = some en := by
  rw [pickStruct_eq_getLast?]
  have h2 : (iter.filter (fun x => x.name == name)).Perm [en] := by
    rw [← hfil]
    exact hperm.filter _
  rw [List.perm_singleton.mp h2]
  rfl

theorem pickStruct_none_of_no_match (iter base : List StructEntry)
    (name : String) (hperm : iter.Perm base)
    (h : ∀ en ∈ base, en.name ≠ name) : pickStruct iter name = none := by
  rw [pickStruct_eq_getLast?]
  have hnil : iter.filter (fun x => x.name == name) = [] := by
    rw [List.filter_eq_nil_iff]
    intro a ha
    simp only [beq_iff_eq]
    exact h a (hperm.mem_iff.mp ha)
  rw [hnil]
  rfl

theorem fieldSelection_of_filter_singleton (c : Config) (en : StructEntry)
    (fld : Field)
    (hfil : (Fields.list en.fields).filter
        (fun f => f.names.contains c.fieldName) = [fld]) :
    fieldSelection c en = .ok ((fld.line : Int), (fld.endLine : Int)) := by
  unfold fieldSelection
  rw [findFieldAux_eq_getLast?, hfil]
  rfl

theorem fieldSelection_no_field (c : Config) (en : StructEntry)
    (h : ∀ f ∈ Fields.list en.fields, f.names.contains c.fieldName = false) :
    fieldSelection c en = .error (.fieldNotFound c.structName c.fieldName) := by
  unfold fieldSelection
  rw [findFieldAux_eq_getLast?,
    show (Fields.list en.fields).filter (fun f => f.names.contains c.fieldName) = []
      from List.filter_eq_nil_iff.mpr (fun a ha => by rw [h a ha]; simp)]
  rfl

end GMT

namespace GMT

/-! ## Claim C3 (corrected) -/

/-- C3 counterexample: Go inserts no semicolon after the `struct`
keyword, so a newline may separate the keyword from the opening brace, as
in the parseable file (brace characters drawn as parentheses)
```
1  package p
2
3  type foo struct
4  (
5      A int
6  )
```
The struct keyword is on line 3 and the opening brace on line 4.  The
collected index has exactly one entry named foo, yet record selection
returns the keyword line 3, not the opening-brace line 4 stated by the
claim. -/
theorem structSelection_keyword_line_counterexample :
    collectStructs
        [.typeSpec "foo"
          (.structType 3 4 6 (.cons (.mk ["A"] 5 (.ident "int" 5) 5) .nil))]
      = [⟨"foo", 3, 4, 6, .cons (.mk ["A"] 5 (.ident "int" 5) 5) .nil⟩] ∧
    structSelection { structName := "foo" }
        (collectStructs
          [.typeSpec "foo"
            (.structType 3 4 6 (.cons (.mk ["A"] 5 (.ident "int" 5) 5) .nil))])
      = .ok (3, 6) ∧
    ((3 : Int), (6 : Int)) ≠ ((4 : Int), (6 : Int)) :=
  ⟨rfl, rfl, by decide⟩

/-- C3 (amended): for a file whose collected index has exactly one entry
with the requested record name, record selection over any enumeration of
the index returns the span from the line of the `struct` keyword of the record
(the position of the record node, equal to the opening-brace line
whenever keyword and brace share a line) through the closing-brace line,
inclusive, from original source positions; when a field name is also
given and exactly one field of that record declares it, selection returns
the start and end lines of the own extent of that field. -/
theorem structSelection_span_amended (c : Config) (ds : List Decl)
    (iter : List StructEntry) (en : StructEntry)
    (hperm : iter.Perm (collectStructs ds))
    (huniq : (collectStructs ds).filter (fun x => x.name == c.structName) = [en]) :
    (c.fieldName = "" →
        structSelection c iter = .ok ((en.kwLine : Int), (en.closeLine : Int))) ∧
    (∀ fld : Field, c.fieldName ≠ "" →
        (Fields.list en.fields).filter
            (fun f => f.names.contains c.fieldName) = [fld] →
        structSelection c iter = .ok ((fld.line : Int), (fld.endLine : Int))) := by
  have hpick :=
    pickStruct_of_filter_singleton iter (collectStructs ds) c.structName en hperm huniq
  constructor
  · intro hf
    rw [structSelection_of_pick c iter en hpick, if_neg (by simp [hf])]
  · intro fld hf hfil
    rw [structSelection_of_pick c iter en hpick, if_pos (by simpa using hf)]
    exact fieldSelection_of_filter_singleton c en fld hfil

theorem structSelection_span_amended_witness :
    structSelection { structName := "foo" }
        (collectStructs
          [.typeSpec "foo"
            (.structType 2 2 4 (.cons (.mk ["A"] 3 (.ident "int" 3) 3) .nil))])
      = .ok (2, 4) ∧
    structSelection { structName := "foo", fieldName := "A" }
        (collectStructs
          [.typeSpec "foo"
            (.structType 2 2 4 (.cons (.mk ["A"] 3 (.ident "int" 3) 3) .nil))])
      = .ok (3, 3) :=
  ⟨(structSelection_span_amended { structName := "foo" }
      [.typeSpec "foo"
        (.structType 2 2 4 (.cons (.mk ["A"] 3 (.ident "int" 3) 3) .nil))]
      (collectStructs
        [.typeSpec "foo"
          (.structType 2 2 4 (.cons (.mk ["A"] 3 (.ident "int" 3) 3) .nil))])
      ⟨"foo", 2, 2, 4, .cons (.mk ["A"] 3 (.ident "int" 3) 3) .nil⟩
      (List.Perm.refl _) rfl).1 rfl,
    (structSelection_span_amended { structName := "foo", fieldName := "A" }
      [.typeSpec "foo"
        (.structType 2 2 4 (.cons (.mk ["A"] 3 (.ident "int" 3) 3) .nil))]
      (collectStructs
        [.typeSpec "foo"
          (.structType 2 2 4 (.cons (.mk ["A"] 3 (.ident "int" 3) 3) .nil))])
      ⟨"foo", 2, 2, 4, .cons (.mk ["A"] 3 (.ident "int" 3) 3) .nil⟩
      (List.Perm.refl _) rfl).2
      (.mk ["A"] 3 (.ident "int" 3) 3) (by decide) rfl⟩

end GMT

namespace GMT

/-! ## Claim C5 -/

/-- C5: record selection with a name matching no collected entry fails
with the record-not-found error; with at least one matching record but a
field name declared by no field of any matching record it fails with the
field-not-found error, which carries both the record and the field name
and whose message text always differs from the record-not-found message;
in both failure cases the pipeline stops before the rewrite, so the tree
is never mutated and no output tree is produced. -/
theorem notfound_errors (c : Config) (file : GoFile) (iter : List StructEntry)
    (hline : c.line = "") (hsn : c.structName ≠ "")
    (hperm : iter.Perm (collectStructs file.decls)) :
    ((∀ en ∈ collectStructs file.decls, en.name ≠ c.structName) →
        structSelection c iter = .error .structNotFound ∧
        runCore c file iter = .error .structNotFound) ∧
    (c.fieldName ≠ "" →
        (∃ en ∈ collectStructs file.decls, en.name = c.structName) →
        (∀ en ∈ collectStructs file.decls, en.name = c.structName →
            ∀ f ∈ Fields.list en.fields, f.names.contains c.fieldName = false) →
        structSelection c iter = .error (.fieldNotFound c.structName c.fieldName) ∧
        runCore c file iter = .error (.fieldNotFound c.structName c.fieldName)) ∧
    (SelErr.fieldNotFound c.structName c.fieldName ≠ SelErr.structNotFound ∧
        (SelErr.fieldNotFound c.structName c.fieldName).message
          ≠ SelErr.structNotFound.message) := by
  refine ⟨?_, ?_, ?_, ?_⟩
  · intro hno
    have hpick := pickStruct_none_of_no_match iter _ c.structName hperm hno
    have h1 := structSelection_none c iter hpick
    exact ⟨h1, runCore_error c file iter _
      (by rw [findSelection_struct c file iter hline hsn, h1])⟩
  · intro hfn hex hnone
    have hfilperm := hperm.filter (fun x => x.name == c.structName)
    obtain ⟨en0, hen0, hname0⟩ := hex
    have hne : (collectStructs file.decls).filter
        (fun x => x.name == c.structName) ≠ [] := by
      intro hnil
      have := List.filter_eq_nil_iff.mp hnil en0 hen0
      simp [hname0] at this
    have hne2 : iter.filter (fun x => x.name == c.structName) ≠ [] := by
      intro hnil
      rw [hnil] at hfilperm
      exact hne (List.Perm.eq_nil hfilperm.symm)
    obtain ⟨enp, henp⟩ :=
      Option.isSome_iff_exists.mp (List.getLast?_isSome.mpr hne2)
    have hpick : pickStruct iter c.structName = some enp := by
      rw [pickStruct_eq_getLast?, henp]
    have hmem : enp ∈ iter.filter (fun x => x.name == c.structName) :=
      mem_of_getLast?_eq henp
    obtain ⟨hmemb, hnameb⟩ := List.mem_filter.mp (hfilperm.mem_iff.mp hmem)
    have hfields := hnone enp hmemb (by simpa using hnameb)
    have h1 : structSelection c iter
        = .error (.fieldNotFound c.structName c.fieldName) := by
      rw [structSelection_of_pick c iter enp hpick, if_pos (by simpa using hfn)]
      exact fieldSelection_no_field c enp hfields
    exact ⟨h1, runCore_error c file iter _
      (by rw [findSelection_struct c file iter hline hsn, h1])⟩
  · exact fun h => SelErr.noConfusion h
  · intro h
    have hlen := congrArg String.length h
    simp only [SelErr.message, goQuote, String.length_append] at hlen
    rw [show ("struct " : String).length = 7 from rfl,
      show ("\x22" : String).length = 1 from rfl,
      show (" doesn\x27t have field name " : String).length = 25 from rfl,
      show ("struct name does not exist" : String).length = 26 from rfl] at hlen
    omega

theorem notfound_errors_witness :
    structSelection { structName := "qux" }
        (collectStructs
          [.typeSpec "foo"
            (.structType 2 2 4 (.cons (.mk ["A"] 3 (.ident "int" 3) 3) .nil))])
      = .error .structNotFound ∧
    runCore { structName := "qux" }
        ⟨[.typeSpec "foo"
            (.structType 2 2 4 (.cons (.mk ["A"] 3 (.ident "int" 3) 3) .nil))], 4⟩
        (collectStructs
          [.typeSpec "foo"
            (.structType 2 2 4 (.cons (.mk ["A"] 3 (.ident "int" 3) 3) .nil))])
      = .error .structNotFound :=
  (notfound_errors { structName := "qux" }
      ⟨[.typeSpec "foo"
          (.structType 2 2 4 (.cons (.mk ["A"] 3 (.ident "int" 3) 3) .nil))], 4⟩
      (collectStructs
        [.typeSpec "foo"
          (.structType 2 2 4 (.cons (.mk ["A"] 3 (.ident "int" 3) 3) .nil))])
      rfl (by decide) (List.Perm.refl _)).1 (by decide)

end GMT

namespace GMT

/-! ## Claim C8 (corrected) -/

/-- Model of the parseable Go file (brace characters drawn as
parentheses; the parser performs no scope or duplicate checking)
```
1  package p
2  type foo struct (
3      A int
4  )
5  var foo struct (
6      B string
7  )
```
whose two records share the inferred name foo. -/
def sharedNameFile : List Decl :=
  [.typeSpec "foo" (.structType 2 2 4 (.cons (.mk ["A"] 3 (.ident "int" 3) 3) .nil)),
   .valueSpec ["foo"] (.structType 5 5 7 (.cons (.mk ["B"] 6 (.ident "string" 6) 6) .nil))]

/-- C8 counterexample: the collected index of `sharedNameFile` holds two
entries named foo.  The Go code stores the index in a map and the
selection loop ranges over that map, whose enumeration order is
unspecified and randomized between runs.  Enumerating the same index in
two orders that are permutations of each other makes record selection
return different spans, so the outcome is not a function of the traversal
order (and hence not guaranteed deterministic across runs), refuting the
claim. -/
theorem structSelection_enumeration_counterexample :
    ((collectStructs sharedNameFile).reverse).Perm (collectStructs sharedNameFile) ∧
    structSelection { structName := "foo" } (collectStructs sharedNameFile)
      = .ok (5, 7) ∧
    structSelection { structName := "foo" } ((collectStructs sharedNameFile).reverse)
      = .ok (2, 4) ∧
    structSelection { structName := "foo" } (collectStructs sharedNameFile)
      ≠ structSelection { structName := "foo" } ((collectStructs sharedNameFile).reverse) := by
  refine ⟨List.reverse_perm _, rfl, rfl, ?_⟩
  intro h
  rw [show structSelection { structName := "foo" } (collectStructs sharedNameFile)
        = .ok (5, 7) from rfl,
    show structSelection { structName := "foo" } ((collectStructs sharedNameFile).reverse)
        = .ok (2, 4) from rfl] at h
  exact absurd (Except.ok.inj h) (by decide)

/-- C8 (amended): for any fixed enumeration of the collected index,
record selection resolves to the last enumerated entry carrying the
requested name (last visited wins), deterministically in that
enumeration; the Go map holding the index leaves the enumeration order
unspecified, so when several records share the requested name the choice
among them depends on that order, not only on the traversal order. -/
theorem structSelection_last_enumerated_wins (c : Config)
    (iter : List StructEntry) (en : StructEntry)
    (hlast : (iter.filter (fun x => x.name == c.structName)).getLast? = some en)
    (hf : c.fieldName = "") :
    structSelection c iter = .ok ((en.kwLine : Int), (en.closeLine : Int)) := by
  have hpick : pickStruct iter c.structName = some en := by
    rw [pickStruct_eq_getLast?, hlast]
  rw [structSelection_of_pick c iter en hpick, if_neg (by simp [hf])]

theorem structSelection_last_enumerated_wins_witness :
    structSelection { structName := "foo" } (collectStructs sharedNameFile)
      = .ok (5, 7) :=
  structSelection_last_enumerated_wins { structName := "foo" }
    (collectStructs sharedNameFile)
    ⟨"foo", 5, 5, 7, .cons (.mk ["B"] 6 (.ident "string" 6) 6) .nil⟩
    rfl rfl

end GMT
